import Mathlib

/-
Verification of the vol-dashboard skew pipeline.

Shallow embedding of the server core:
- server/src/services/tastytrade.ts : chain resolution (fetchOptionChain),
  the two-phase delta / open-interest streaming collection
  (streamSkewCalculation), and the streamer cleanup (cleanupStreamer);
- server/src/services/cache.ts : MemoryCache;
- server/src/routes/api.ts : the sequential batch runner (runBatch).

JavaScript numbers are modelled as rationals, Date.now timestamps as
integers, and JS objects used as string-keyed dictionaries as
insertion-ordered association lists with unique keys.
-/

namespace VolDashboard

/-- JS Math.abs on rationals. -/
def absQ (x : ℚ) : ℚ := if x < 0 then -x else x

/-- JS Math.abs on integers (used for day counts). -/
def absI (x : ℤ) : ℤ := if x < 0 then -x else x

/-! ### JS object / Map dictionary model

An object literal used as a dictionary keeps insertion order; assigning to
an existing key overwrites in place, assigning to a fresh key appends. -/

/-- Dictionary write, modelling obj[k] = v (overwrite in place or append). -/
def objSet {α : Type} : List (String × α) → String → α → List (String × α)
  | [], k, v => [(k, v)]
  | (k', v') :: rest, k, v =>
      if k' = k then (k, v) :: rest else (k', v') :: objSet rest k v

/-- Dictionary read, modelling obj[k] (undefined becomes none). -/
def objGet {α : Type} : List (String × α) → String → Option α
  | [], _ => none
  | (k', v') :: rest, k => if k' = k then some v' else objGet rest k

/-- Dictionary delete, modelling Map.delete(k). -/
def objDelete {α : Type} (m : List (String × α)) (k : String) : List (String × α) :=
  m.filter (fun p => !(p.1 = k : Bool))

/-! ### ChainResolver (fetchOptionChain, tastytrade.ts lines 196-231)

An expiration from the nested chain response.  The dte field is the value
differenceInDays(parseISO(expiration-date), today) would produce; none
models a missing expiration-date string (the loop skips such entries). -/

structure Expiration where
  expirationType : String
  dte : Option ℤ
deriving Repr, DecidableEq

/-- Allowed expiration categories (validExpTypes in fetchOptionChain). -/
def validExpTypes : List String := ["End-Of-Month", "Regular"]

/-- The filter over chain expirations keeping allowed categories. -/
def filterValidExpirations (items : List Expiration) : List Expiration :=
  items.filter (fun e => validExpTypes.contains e.expirationType)

/-- Target days-to-expiration (targetDte in fetchOptionChain). -/
def targetDte : ℤ := 30

/-- One iteration of the best-expiration loop: skip entries with a
missing date or negative dte, otherwise replace the running best exactly
when the new distance is strictly smaller (diff < minDiff). -/
def expStep (acc : Option (Expiration × ℤ)) (e : Expiration) :
    Option (Expiration × ℤ) :=
  match e.dte with
  | none => acc
  | some d =>
      if d < 0 then acc
      else
        let diff := absI (d - targetDte)
        match acc with
        | none => some (e, diff)
        | some (b, m) => if diff < m then some (e, diff) else some (b, m)

/-- Expiration selection in fetchOptionChain: filter to allowed
categories, fail if none survive, then run the minimum-distance loop and
fail if no eligible expiration was seen. -/
def selectExpiration (items : List Expiration) : Except String Expiration :=
  let filtered := filterValidExpirations items
  if filtered.isEmpty then
    Except.error "No End-Of-Month or Regular expirations found."
  else
    match filtered.foldl expStep none with
    | none => Except.error "No suitable expiration found."
    | some (b, _) => Except.ok b

/-- Eligibility of a single (category-valid) expiration for the
selection loop, paired with its distance from the target dte. -/
def expEligible (e : Expiration) : Option (Expiration × ℤ) :=
  match e.dte with
  | none => none
  | some d => if d < 0 then none else some (e, absI (d - targetDte))

/-- The eligible expirations, in encounter order, with their distances. -/
def eligibleExps (items : List Expiration) : List (Expiration × ℤ) :=
  (filterValidExpirations items).filterMap expEligible

/-! ### StrikeSelector (streamSkewCalculation, tastytrade.ts lines 331-357) -/

/-- A call or put candidate: stream identifier plus observed delta. -/
structure Candidate where
  symbol : String
  delta : ℚ
deriving Repr, DecidableEq

/-- delta >= 0.10 && delta <= 0.30 (the call band test). -/
def inCallBand (d : ℚ) : Bool := decide (0.10 ≤ d) && decide (d ≤ 0.30)

/-- delta <= -0.10 && delta >= -0.30 (the put band test). -/
def inPutBand (d : ℚ) : Bool := decide (d ≤ -0.10) && decide (-0.30 ≤ d)

/-- The call candidates: the entries of the delta map whose delta lies in
the call band, in encounter order (the single for-of loop over
Object.entries pushes matching entries in order). -/
def callCandidates (deltaMap : List (String × ℚ)) : List Candidate :=
  (deltaMap.filter (fun p => inCallBand p.2)).map (fun p => ⟨p.1, p.2⟩)

/-- The put candidates: entries whose delta lies in the put band. -/
def putCandidates (deltaMap : List (String × ℚ)) : List Candidate :=
  (deltaMap.filter (fun p => inPutBand p.2)).map (fun p => ⟨p.1, p.2⟩)

/-- JS Array.prototype.sort with comparator
(a, b) => Math.abs(a.delta - target) - Math.abs(b.delta - target):
a stable sort by ascending distance of delta from the target. -/
def sortByDist (target : ℚ) (cs : List Candidate) : List Candidate :=
  cs.mergeSort (fun a b => decide (absQ (a.delta - target) ≤ absQ (b.delta - target)))

/-- balancedCount = min(callCandidates.length, putCandidates.length). -/
def balancedCount (deltaMap : List (String × ℚ)) : ℕ :=
  min (callCandidates deltaMap).length (putCandidates deltaMap).length

/-- selectedCalls = sorted call candidates truncated to the balanced count. -/
def selectedCalls (deltaMap : List (String × ℚ)) : List Candidate :=
  (sortByDist 0.20 (callCandidates deltaMap)).take (balancedCount deltaMap)

/-- selectedPuts = sorted put candidates truncated to the balanced count. -/
def selectedPuts (deltaMap : List (String × ℚ)) : List Candidate :=
  (sortByDist (-0.20) (putCandidates deltaMap)).take (balancedCount deltaMap)

/-- filteredSymbols = selected call identifiers followed by selected put
identifiers (the Phase-2 subscription list). -/
def filteredSymbols (deltaMap : List (String × ℚ)) : List String :=
  (selectedCalls deltaMap).map Candidate.symbol ++
    (selectedPuts deltaMap).map Candidate.symbol

/-! ### DeltaCollector Phase-1 listener (tastytrade.ts lines 293-328) -/

/-- An inbound feed event as seen by the Phase-1 listener.
eventSymbol is event.eventSymbol || event.symbol (none when absent);
isGreeks is the test (type === Greeks || event.greeks);
delta is the value of (event.greeks?.delta || event.delta) when that value
is a number, none otherwise. -/
structure GreekEvent where
  eventSymbol : Option String
  isGreeks : Bool
  delta : Option ℚ
deriving Repr, DecidableEq

/-- One step of onDeltaMessage for one event: skip events without a
symbol or whose symbol is not subscribed, skip non-greek events and
events without a numeric delta, otherwise record deltas[sym] = delta. -/
def applyGreekEvent (subscribed : List String) (deltas : List (String × ℚ))
    (e : GreekEvent) : List (String × ℚ) :=
  match e.eventSymbol with
  | none => deltas
  | some sym =>
      if subscribed.contains sym then
        if e.isGreeks then
          match e.delta with
          | some d => objSet deltas sym d
          | none => deltas
        else deltas
      else deltas

/-- The delta map accumulated by the Phase-1 listener over a sequence of
inbound events (resolved when the 5000 ms timer fires). -/
def collectDeltas (subscribed : List String) (events : List GreekEvent) :
    List (String × ℚ) :=
  events.foldl (applyGreekEvent subscribed) []

/-- The deltas of the events a given identifier would have recorded, in
arrival order (used to state the last-write-wins property). -/
def relevantDeltas (subscribed : List String) (events : List GreekEvent)
    (sym : String) : List ℚ :=
  events.filterMap (fun e =>
    if e.eventSymbol = some sym ∧ subscribed.contains sym ∧ e.isGreeks then
      e.delta
    else none)

/-! ### OiCollector / SkewComputer (tastytrade.ts lines 376-448) -/

/-- A dataStore entry: the delta carried over from Phase 1 (always
present for a selected identifier) and the open interest recorded by the
Phase-2 listener, none until a summary/quote event with a numeric
openInterest arrives. -/
structure OiEntry where
  delta : ℚ
  oi : Option ℚ
deriving Repr, DecidableEq

/-- The running sums of the Phase-2 timer body: open-interest sums, side
counts, and the delta*oi weighted sums (avgCallDelta / avgPutDelta before
the final division). -/
structure OiAgg where
  callOiSum : ℚ
  putOiSum : ℚ
  callCount : ℕ
  putCount : ℕ
  callDeltaOiSum : ℚ
  putDeltaOiSum : ℚ
deriving Repr, DecidableEq

def initAgg : OiAgg := ⟨0, 0, 0, 0, 0, 0⟩

/-- One iteration of the Phase-2 aggregation loop: an entry contributes
only when its open interest is known and > 0; it is then added to the
call side if its delta is in the call band and to the put side if its
delta is in the put band. -/
def aggStep (a : OiAgg) (e : OiEntry) : OiAgg :=
  match e.oi with
  | none => a
  | some oi =>
      if 0 < oi then
        let a1 :=
          if inCallBand e.delta then
            { a with
              callOiSum := a.callOiSum + oi
              callDeltaOiSum := a.callDeltaOiSum + e.delta * oi
              callCount := a.callCount + 1 }
          else a
        if inPutBand e.delta then
          { a1 with
            putOiSum := a1.putOiSum + oi
            putDeltaOiSum := a1.putDeltaOiSum + e.delta * oi
            putCount := a1.putCount + 1 }
        else a1
      else a

/-- The aggregate over the whole dataStore (the for-of loop over
Object.entries(dataStore)). -/
def oiAggregate (dataStore : List (String × OiEntry)) : OiAgg :=
  dataStore.foldl (fun acc p => aggStep acc p.2) initAgg

/-- The result produced on success (SkewResult in tastytrade.ts). -/
structure SkewResult where
  skew : ℚ
  expirationDate : String
  dte : ℤ
  callOi : ℚ
  putOi : ℚ
  callDelta : ℚ
  putDelta : ℚ
  callStreamerSymbol : String
  putStreamerSymbol : String
deriving Repr, DecidableEq

/-- The rejection message built when a side is missing data. -/
def oiTimeoutMsg (callCount putCount : ℕ) : String :=
  "Timeout: Got OI for " ++ toString callCount ++ " calls and " ++
    toString putCount ++ " puts"

/-- The Phase-2 timer body: aggregate the dataStore, divide the weighted
delta sums where the divisor is positive, then resolve with a SkewResult
when both open-interest sums are positive and reject otherwise. -/
def computePhase2 (dataStore : List (String × OiEntry))
    (expirationDate : String) (dte : ℤ) : Except String SkewResult :=
  let a := oiAggregate dataStore
  let avgCallDelta := if 0 < a.callOiSum then a.callDeltaOiSum / a.callOiSum
    else a.callDeltaOiSum
  let avgPutDelta := if 0 < a.putOiSum then a.putDeltaOiSum / a.putOiSum
    else a.putDeltaOiSum
  if 0 < a.callOiSum ∧ 0 < a.putOiSum then
    Except.ok
      { skew := a.putOiSum / a.callOiSum
        expirationDate := expirationDate
        dte := dte
        callOi := a.callOiSum
        putOi := a.putOiSum
        callDelta := avgCallDelta
        putDelta := avgPutDelta
        callStreamerSymbol := toString a.callCount ++ " options"
        putStreamerSymbol := toString a.putCount ++ " options" }
  else
    Except.error (oiTimeoutMsg a.callCount a.putCount)

/-! ### ResultCache (cache.ts, MemoryCache) -/

/-- A cache entry: the stored value and its absolute expiry timestamp. -/
structure CacheEntry (α : Type) where
  data : α
  expiresAt : ℤ
deriving Repr, DecidableEq

/-- The MemoryCache state: the key-entry map and the default TTL. -/
structure MemoryCache (α : Type) where
  cache : List (String × CacheEntry α)
  defaultTtlMs : ℤ
deriving Repr, DecidableEq

/-- The default TTL of the skew cache: 60 * 60 * 1000 ms (one hour). -/
def oneHourMs : ℤ := 60 * 60 * 1000

/-- MemoryCache.get at the current time now: absent keys give null;
an entry with Date.now() > expiresAt is deleted and treated as null;
otherwise the stored value is returned.  Returns the updated cache and
the read result. -/
def cacheGet {α : Type} (c : MemoryCache α) (now : ℤ) (key : String) :
    MemoryCache α × Option α :=
  match objGet c.cache key with
  | none => (c, none)
  | some entry =>
      if entry.expiresAt < now then
        ({ c with cache := objDelete c.cache key }, none)
      else (c, some entry.data)

/-- MemoryCache.set at the current time now: stores the value with
expiresAt = now + (ttlMs ?? defaultTtlMs), overwriting any entry. -/
def cacheSet {α : Type} (c : MemoryCache α) (now : ℤ) (key : String)
    (v : α) (ttlMs : Option ℤ) : MemoryCache α :=
  { c with cache := objSet c.cache key ⟨v, now + ttlMs.getD c.defaultTtlMs⟩ }

/-! ### BatchScheduler (api.ts, runBatch / processSymbol, lines 88-158)

The per-symbol behaviour of processSymbol is abstracted by an outcome
function: a symbol either hits the cache, completes the pipeline with a
result, or fails with an error message (any pipeline failure surfaces as
one progress event of type error, caught inside processSymbol). -/

inductive SymbolOutcome (α : Type) where
  | cachedHit (v : α)
  | computed (v : α)
  | failed (msg : String)

/-- One loop iteration: a cache hit or a computed result is recorded in
results[symbol]; a failure is recorded in errors[symbol]; the loop then
proceeds to the next symbol in both cases. -/
def processSymbol {α : Type} (outcome : String → SymbolOutcome α)
    (st : List (String × α) × List (String × String)) (sym : String) :
    List (String × α) × List (String × String) :=
  match outcome sym with
  | SymbolOutcome.cachedHit v => (objSet st.1 sym v, st.2)
  | SymbolOutcome.computed v => (objSet st.1 sym v, st.2)
  | SymbolOutcome.failed m => (st.1, objSet st.2 sym m)

/-- The final summary: total = symbols.length,
successful = Object.keys(results).length,
failed = Object.keys(errors).length. -/
structure BatchSummary where
  total : ℕ
  successful : ℕ
  failed : ℕ
deriving Repr, DecidableEq

/-- runBatch: process every symbol in request order, then emit the
results map, the errors map and the summary. -/
def runBatch {α : Type} (outcome : String → SymbolOutcome α)
    (symbols : List String) :
    (List (String × α) × List (String × String)) × BatchSummary :=
  let st := symbols.foldl (processSymbol outcome) ([], [])
  (st, ⟨symbols.length, st.1.length, st.2.length⟩)

/-- Whether a symbol's outcome lands in the results map. -/
def outcomeOk {α : Type} (outcome : String → SymbolOutcome α) (s : String) :
    Bool :=
  match outcome s with
  | SymbolOutcome.failed _ => false
  | _ => true

/-! ### Streamer subscription state and teardown
(tastytrade.ts lines 10-15, 76-117, 259-459)

The module-level mutable state: whether the client singleton has been
created, the tracked subscription list, and whether an event handler and
a pending timeout are installed. -/

structure StreamerState where
  clientInit : Bool
  currentSubscribedSymbols : List String
  currentEventHandler : Bool
  currentTimeout : Bool
deriving Repr, DecidableEq

/-- cleanupStreamer: a no-op when the client singleton was never created
(the guard if (!client) return), otherwise clears the pending timeout,
removes and clears the event handler, and unsubscribes and clears the
subscription list. -/
def cleanupStreamer (s : StreamerState) : StreamerState :=
  if s.clientInit = false then s
  else
    { s with
      currentTimeout := false
      currentEventHandler := false
      currentSubscribedSymbols := [] }

/-- The subscription state holds no subscriptions, listener or timer. -/
def streamerIdle (s : StreamerState) : Prop :=
  s.currentSubscribedSymbols = [] ∧ s.currentEventHandler = false ∧
    s.currentTimeout = false

/-- authenticate: returns the existing client if already created,
creates it when credentials are present, and throws (none) otherwise. -/
def authenticate (hasCreds : Bool) (s : StreamerState) :
    Option StreamerState :=
  if s.clientInit then some s
  else if hasCreds then some { s with clientInit := true }
  else none

/-- The control skeleton of streamSkewCalculation: an initial
cleanupStreamer call, authentication, then the body (chain fetch,
Phase 1, filtering, Phase 2 - abstracted as a state transformer paired
with a success flag; a thrown error is a false flag), and the finally
block running cleanupStreamer on every exit path. -/
def streamSkewRun (hasCreds : Bool)
    (body : StreamerState → StreamerState × Bool) (s : StreamerState) :
    StreamerState × Bool :=
  let s1 := cleanupStreamer s
  match authenticate hasCreds s1 with
  | none => (cleanupStreamer s1, false)
  | some s2 =>
      let r := body s2
      (cleanupStreamer r.1, r.2)

/-! ### Auxiliary definitions for the proofs and concrete instances -/

/-- The selection loop restricted to eligible entries: replace the
running best exactly when the new distance is strictly smaller. -/
def minStep (acc : Option (Expiration × ℤ)) (p : Expiration × ℤ) :
    Option (Expiration × ℤ) :=
  match acc with
  | none => some p
  | some b => if p.2 < b.2 then some p else some b

/-- Concrete chain with candidate dte values 10, 25, 32, 40. -/
def itemsC4a : List Expiration :=
  [⟨"Regular", some 10⟩, ⟨"Regular", some 25⟩, ⟨"Regular", some 32⟩,
    ⟨"Regular", some 40⟩]

/-- Concrete chain with a disallowed category at dte exactly 30. -/
def itemsC4b : List Expiration :=
  [⟨"Weekly", some 30⟩, ⟨"Regular", some 40⟩]

/-- The delta map of the spec's worked strike-selection example. -/
def dmC8 : List (String × ℚ) :=
  [("A", 0.12), ("B", 0.25), ("C", 0.31), ("P1", -0.18), ("P2", -0.09)]

/-- A Phase-2 dataStore giving call OI 100 and put OI 150. -/
def dsC2 : List (String × OiEntry) :=
  [("CALLID", ⟨0.20, some 100⟩), ("PUTID", ⟨-0.20, some 150⟩)]

/-- The SkewResult the pipeline produces on dsC2. -/
def resC2 : SkewResult :=
  { skew := 1.5
    expirationDate := "2026-01-16"
    dte := 30
    callOi := 100
    putOi := 150
    callDelta := 0.20
    putDelta := -0.20
    callStreamerSymbol := "1 options"
    putStreamerSymbol := "1 options" }

/-- A Phase-2 dataStore with call OI sum 0 and put OI sum 40. -/
def dsC3 : List (String × OiEntry) :=
  [("PUTID", ⟨-0.20, some 40⟩)]

/-- A cache holding one value stored at time 0 with the default TTL. -/
def cacheC5 : MemoryCache ℚ :=
  cacheSet ⟨[], oneHourMs⟩ 0 "SPY" 1.5 none

/-- A greek event carrying a delta of 2, outside [-1, 1]. -/
def eventC7 : GreekEvent := ⟨some "A", true, some 2⟩

/-- A batch outcome where the second of three symbols fails in the
strike-selection stage and the others complete. -/
def outcomeC6 : String → SymbolOutcome ℚ := fun s =>
  if s = "S2" then
    SymbolOutcome.failed "No options found in the 10-30 delta range"
  else if s = "S1" then SymbolOutcome.cachedHit 1.5
  else SymbolOutcome.computed 0.8

/-- A start state with leftover subscriptions from a previous run. -/
def stateC9 : StreamerState := ⟨true, ["OLDSYM"], true, true⟩

/-- A pipeline body that subscribes and installs a listener and timer. -/
def bodyC9 : StreamerState → StreamerState × Bool := fun s =>
  ({ s with
      currentSubscribedSymbols := ["A", "B"]
      currentEventHandler := true
      currentTimeout := true }, true)

/-! ## Helper lemmas -/

theorem objGet_objSet_self {α : Type} (m : List (String × α)) (k : String)
    (v : α) : objGet (objSet m k v) k = some v := by
  induction m with
  | nil => simp [objSet, objGet]
  | cons p rest ih =>
      by_cases h : p.1 = k
      · obtain ⟨k', v'⟩ := p
        simp_all [objSet, objGet]
      · obtain ⟨k', v'⟩ := p
        simp_all [objSet, objGet]

theorem objGet_objSet_ne {α : Type} (m : List (String × α)) (k k' : String)
    (v : α) (h : k' ≠ k) : objGet (objSet m k v) k' = objGet m k' := by
  induction m with
  | nil => simp [objSet, objGet, Ne.symm h]
  | cons p rest ih =>
      obtain ⟨k₀, v₀⟩ := p
      by_cases h₀ : k₀ = k
      · subst h₀
        simp [objSet, objGet, Ne.symm h]
      · by_cases h₁ : k₀ = k' <;> simp [objSet, objGet, h₀, h₁, ih, h]

theorem aggStep_callOiSum_le (a : OiAgg) (e : OiEntry) :
    a.callOiSum ≤ (aggStep a e).callOiSum := by
  unfold aggStep
  cases e.oi with
  | none => simp
  | some oi =>
      simp only
      split_ifs <;> simp <;> linarith

theorem aggStep_putOiSum_le (a : OiAgg) (e : OiEntry) :
    a.putOiSum ≤ (aggStep a e).putOiSum := by
  unfold aggStep
  cases e.oi with
  | none => simp
  | some oi =>
      simp only
      split_ifs <;> simp <;> linarith

theorem foldl_aggStep_callOiSum_le (l : List (String × OiEntry)) (a : OiAgg) :
    a.callOiSum ≤ (l.foldl (fun acc p => aggStep acc p.2) a).callOiSum := by
  induction l generalizing a with
  | nil => simp
  | cons p rest ih =>
      calc a.callOiSum ≤ (aggStep a p.2).callOiSum := aggStep_callOiSum_le a p.2
        _ ≤ _ := ih (aggStep a p.2)

theorem foldl_aggStep_putOiSum_le (l : List (String × OiEntry)) (a : OiAgg) :
    a.putOiSum ≤ (l.foldl (fun acc p => aggStep acc p.2) a).putOiSum := by
  induction l generalizing a with
  | nil => simp
  | cons p rest ih =>
      calc a.putOiSum ≤ (aggStep a p.2).putOiSum := aggStep_putOiSum_le a p.2
        _ ≤ _ := ih (aggStep a p.2)

theorem oiAggregate_callOiSum_nonneg (ds : List (String × OiEntry)) :
    0 ≤ (oiAggregate ds).callOiSum := by
  have h := foldl_aggStep_callOiSum_le ds initAgg
  simpa [oiAggregate, initAgg] using h

theorem oiAggregate_putOiSum_nonneg (ds : List (String × OiEntry)) :
    0 ≤ (oiAggregate ds).putOiSum := by
  have h := foldl_aggStep_putOiSum_le ds initAgg
  simpa [oiAggregate, initAgg] using h

theorem mem_callCandidates {dm : List (String × ℚ)} {s : String} {d : ℚ} :
    (⟨s, d⟩ : Candidate) ∈ callCandidates dm ↔
      (s, d) ∈ dm ∧ inCallBand d = true := by
  simp only [callCandidates, List.mem_map, List.mem_filter, Candidate.mk.injEq]
  constructor
  · rintro ⟨⟨a, b⟩, ⟨hmem, hband⟩, hs, hd⟩
    subst hs; subst hd
    exact ⟨hmem, hband⟩
  · rintro ⟨hmem, hband⟩
    exact ⟨(s, d), ⟨hmem, hband⟩, rfl, rfl⟩

theorem mem_putCandidates {dm : List (String × ℚ)} {s : String} {d : ℚ} :
    (⟨s, d⟩ : Candidate) ∈ putCandidates dm ↔
      (s, d) ∈ dm ∧ inPutBand d = true := by
  simp only [putCandidates, List.mem_map, List.mem_filter, Candidate.mk.injEq]
  constructor
  · rintro ⟨⟨a, b⟩, ⟨hmem, hband⟩, hs, hd⟩
    subst hs; subst hd
    exact ⟨hmem, hband⟩
  · rintro ⟨hmem, hband⟩
    exact ⟨(s, d), ⟨hmem, hband⟩, rfl, rfl⟩

theorem sortByDist_pairwise (target : ℚ) (cs : List Candidate) :
    (sortByDist target cs).Pairwise
      (fun a b => absQ (a.delta - target) ≤ absQ (b.delta - target)) := by
  have h := @List.sorted_mergeSort Candidate
    (fun a b : Candidate =>
      decide (absQ (a.delta - target) ≤ absQ (b.delta - target)))
    (fun a b c hab hbc => by
      simp only [decide_eq_true_eq] at *
      exact le_trans hab hbc)
    (fun a b => by
      simp only [Bool.or_eq_true, decide_eq_true_eq]
      exact le_total _ _)
    cs
  exact h.imp (fun hab => by simpa using hab)

theorem sortByDist_perm (target : ℚ) (cs : List Candidate) :
    (sortByDist target cs).Perm cs :=
  List.mergeSort_perm cs _

theorem selectedCalls_length (dm : List (String × ℚ)) :
    (selectedCalls dm).length = balancedCount dm := by
  simp only [selectedCalls, sortByDist, List.length_take, List.length_mergeSort,
    balancedCount]
  omega

theorem selectedPuts_length (dm : List (String × ℚ)) :
    (selectedPuts dm).length = balancedCount dm := by
  simp only [selectedPuts, sortByDist, List.length_take, List.length_mergeSort,
    balancedCount]
  omega

theorem bands_disjoint (d : ℚ) : ¬(inCallBand d = true ∧ inPutBand d = true) := by
  simp only [inCallBand, inPutBand, Bool.and_eq_true, decide_eq_true_eq]
  rintro ⟨⟨h1, _⟩, ⟨h2, _⟩⟩
  linarith

theorem nodup_keys_functional {dm : List (String × ℚ)} {s : String} {d₁ d₂ : ℚ}
    (hnd : (dm.map Prod.fst).Nodup) (h₁ : (s, d₁) ∈ dm) (h₂ : (s, d₂) ∈ dm) :
    d₁ = d₂ := by
  induction dm with
  | nil => cases h₁
  | cons p rest ih =>
      obtain ⟨hhead, hrest⟩ := List.nodup_cons.mp hnd
      rcases List.mem_cons.mp h₁ with he₁ | he₁ <;>
        rcases List.mem_cons.mp h₂ with he₂ | he₂
      · exact congrArg Prod.snd (he₁.trans he₂.symm)
      · exfalso
        apply hhead
        rw [← he₁]
        exact List.mem_map.mpr ⟨(s, d₂), he₂, rfl⟩
      · exfalso
        apply hhead
        rw [← he₂]
        exact List.mem_map.mpr ⟨(s, d₁), he₁, rfl⟩
      · exact ih hrest he₁ he₂

theorem mem_selectedCalls {dm : List (String × ℚ)} {c : Candidate}
    (h : c ∈ selectedCalls dm) : c ∈ callCandidates dm := by
  have h1 : c ∈ sortByDist 0.20 (callCandidates dm) := List.take_subset _ _ h
  exact (sortByDist_perm 0.20 (callCandidates dm)).mem_iff.mp h1

theorem mem_selectedPuts {dm : List (String × ℚ)} {c : Candidate}
    (h : c ∈ selectedPuts dm) : c ∈ putCandidates dm := by
  have h1 : c ∈ sortByDist (-0.20) (putCandidates dm) := List.take_subset _ _ h
  exact (sortByDist_perm (-0.20) (putCandidates dm)).mem_iff.mp h1

theorem candidate_sides_disjoint {dm : List (String × ℚ)}
    (hnd : (dm.map Prod.fst).Nodup) :
    ∀ c ∈ callCandidates dm, ∀ p ∈ putCandidates dm, c.symbol ≠ p.symbol := by
  intro c hc p hp heq
  obtain ⟨hcmem, hcband⟩ := mem_callCandidates.mp hc
  obtain ⟨hpmem, hpband⟩ := mem_putCandidates.mp hp
  rw [heq] at hcmem
  have : c.delta = p.delta := nodup_keys_functional hnd hcmem hpmem
  rw [this] at hcband
  exact bands_disjoint p.delta ⟨hcband, hpband⟩

theorem callCandidates_symbols_nodup {dm : List (String × ℚ)}
    (hnd : (dm.map Prod.fst).Nodup) :
    ((callCandidates dm).map Candidate.symbol).Nodup := by
  have heq : (callCandidates dm).map Candidate.symbol =
      (dm.filter (fun p => inCallBand p.2)).map Prod.fst := by
    simp [callCandidates, List.map_map, Function.comp]
  rw [heq]
  exact (List.Sublist.map Prod.fst (List.filter_sublist dm)).nodup hnd

theorem putCandidates_symbols_nodup {dm : List (String × ℚ)}
    (hnd : (dm.map Prod.fst).Nodup) :
    ((putCandidates dm).map Candidate.symbol).Nodup := by
  have heq : (putCandidates dm).map Candidate.symbol =
      (dm.filter (fun p => inPutBand p.2)).map Prod.fst := by
    simp [putCandidates, List.map_map, Function.comp]
  rw [heq]
  exact (List.Sublist.map Prod.fst (List.filter_sublist dm)).nodup hnd

/-! ## Claim theorems -/

/-- C2: whenever the Phase-2 computation succeeds, the skew field of the
produced result equals putOiSum / callOiSum for the aggregated sums, both
of which are strictly positive; and on the concrete dataStore with call
OI 100 and put OI 150 the produced skew is exactly 1.5. -/
theorem claim_C2_skew_exact_ratio :
    (∀ (ds : List (String × OiEntry)) (e : String) (d : ℤ) (r : SkewResult),
      computePhase2 ds e d = Except.ok r →
        r.skew = (oiAggregate ds).putOiSum / (oiAggregate ds).callOiSum ∧
        r.callOi = (oiAggregate ds).callOiSum ∧
        r.putOi = (oiAggregate ds).putOiSum ∧
        0 < (oiAggregate ds).callOiSum ∧ 0 < (oiAggregate ds).putOiSum) ∧
    (computePhase2 dsC2 "2026-01-16" 30 = Except.ok resC2 ∧
      resC2.skew = 1.5 ∧ resC2.callOi = 100 ∧ resC2.putOi = 150) := by
  constructor
  · intro ds e d r h
    simp only [computePhase2] at h
    split at h
    case isTrue hpos =>
      cases h
      exact ⟨rfl, rfl, rfl, hpos.1, hpos.2⟩
    case isFalse hneg => simp at h
  · refine ⟨?_, rfl, rfl, rfl⟩
    norm_num [computePhase2, oiAggregate, aggStep, initAgg, inCallBand,
      inPutBand, dsC2, resC2, Except.ok.injEq, SkewResult.mk.injEq]
    rfl

/-- C2 witness: the general part of C2 applied to the concrete dataStore
with call OI 100 and put OI 150. -/
theorem claim_C2_witness :
    resC2.skew = (oiAggregate dsC2).putOiSum / (oiAggregate dsC2).callOiSum ∧
    resC2.callOi = (oiAggregate dsC2).callOiSum ∧
    resC2.putOi = (oiAggregate dsC2).putOiSum ∧
    0 < (oiAggregate dsC2).callOiSum ∧ 0 < (oiAggregate dsC2).putOiSum :=
  claim_C2_skew_exact_ratio.1 dsC2 "2026-01-16" 30 resC2
    claim_C2_skew_exact_ratio.2.1

/-- C3: the aggregated open-interest sums are nonnegative; when either
sum is zero the Phase-2 computation fails with the timeout message
reporting how many calls and puts had data, returning no result; and a
result is produced only when both sums are strictly positive. -/
theorem claim_C3_partial_oi_failure :
    ∀ (ds : List (String × OiEntry)) (e : String) (d : ℤ),
      (0 ≤ (oiAggregate ds).callOiSum ∧ 0 ≤ (oiAggregate ds).putOiSum) ∧
      ((oiAggregate ds).callOiSum = 0 ∨ (oiAggregate ds).putOiSum = 0 →
        computePhase2 ds e d = Except.error
          (oiTimeoutMsg (oiAggregate ds).callCount (oiAggregate ds).putCount)) ∧
      (∀ r, computePhase2 ds e d = Except.ok r →
        0 < (oiAggregate ds).callOiSum ∧ 0 < (oiAggregate ds).putOiSum) := by
  intro ds e d
  refine ⟨⟨oiAggregate_callOiSum_nonneg ds, oiAggregate_putOiSum_nonneg ds⟩,
    ?_, ?_⟩
  · intro hzero
    simp only [computePhase2]
    split
    case isTrue hpos =>
      exfalso
      rcases hzero with h0 | h0
      · exact absurd hpos.1 (by rw [h0]; exact lt_irrefl 0)
      · exact absurd hpos.2 (by rw [h0]; exact lt_irrefl 0)
    case isFalse hneg => rfl
  · intro r h
    simp only [computePhase2] at h
    split at h
    case isTrue hpos => exact hpos
    case isFalse hneg => simp at h

/-- C3 witness: on the dataStore with call OI sum 0 and put OI sum 40
the computation fails with the timeout message citing 0 calls and 1 put
with data. -/
theorem claim_C3_witness :
    computePhase2 dsC3 "2026-01-16" 30 =
      Except.error "Timeout: Got OI for 0 calls and 1 puts" ∧
    (oiAggregate dsC3).callOiSum = 0 ∧ (oiAggregate dsC3).putOiSum = 40 := by
  have hcall : (oiAggregate dsC3).callOiSum = 0 := by
    norm_num [oiAggregate, aggStep, initAgg, inCallBand, inPutBand, dsC3]
  have hcnt : (oiAggregate dsC3).callCount = 0 ∧ (oiAggregate dsC3).putCount = 1 := by
    norm_num [oiAggregate, aggStep, initAgg, inCallBand, inPutBand, dsC3]
  have h := (claim_C3_partial_oi_failure dsC3 "2026-01-16" 30).2.1 (Or.inl hcall)
  refine ⟨?_, hcall, ?_⟩
  · rw [h, hcnt.1, hcnt.2]
    rfl
  · norm_num [oiAggregate, aggStep, initAgg, inCallBand, inPutBand, dsC3]

/-- C5 counterexample: a value stored at time 0 with the default
one-hour TTL has expiresAt = 3600000, and get at exactly now = 3600000
still returns it, although now < expiresAt fails - refuting the claim
that get returns the value only when the current time is strictly less
than expiresAt. -/
theorem claim_C5_counterexample :
    objGet cacheC5.cache "SPY" = some ⟨1.5, 3600000⟩ ∧
    (cacheGet cacheC5 3600000 "SPY").2 = some 1.5 ∧
    ¬((3600000 : ℤ) < 3600000) := by
  refine ⟨?_, ?_, by norm_num⟩ <;>
    norm_num [cacheC5, cacheSet, cacheGet, objSet, objGet, oneHourMs,
      CacheEntry.mk.injEq]

/-- C5 amended: set stores the entry with expiresAt = now + ttl (the
default TTL when none is given), overwriting any existing entry for the
key; get returns the stored value exactly when the entry is present and
now ≤ expiresAt, and when now > expiresAt it evicts the entry and
returns absent - so an entry is never returned once the current time
exceeds its expiresAt. -/
theorem claim_C5_cache_ttl_semantics :
    ∀ (α : Type) (c : MemoryCache α) (now : ℤ) (key : String),
      (∀ (v : α) (ttl : Option ℤ),
        objGet (cacheSet c now key v ttl).cache key =
          some ⟨v, now + ttl.getD c.defaultTtlMs⟩) ∧
      (∀ v : α, (cacheGet c now key).2 = some v ↔
        ∃ en, objGet c.cache key = some en ∧ en.data = v ∧
          now ≤ en.expiresAt) ∧
      (∀ en, objGet c.cache key = some en → en.expiresAt < now →
        cacheGet c now key = ({ c with cache := objDelete c.cache key }, none)) := by
  intro α c now key
  refine ⟨?_, ?_, ?_⟩
  · intro v ttl
    simp [cacheSet, objGet_objSet_self]
  · intro v
    simp only [cacheGet]
    cases hg : objGet c.cache key with
    | none => simp [hg]
    | some en =>
        by_cases hlt : en.expiresAt < now
        · simp only [if_pos hlt]
          constructor
          · intro h
            exact absurd h (by simp)
          · rintro ⟨en', hen', _, hle⟩
            cases hen'
            exact absurd hlt (not_lt.mpr hle)
        · simp only [if_neg hlt]
          constructor
          · intro h
            simp only [Option.some.injEq] at h
            exact ⟨en, rfl, h.symm ▸ rfl, not_lt.mp hlt⟩
          · rintro ⟨en', hen', hdata, _⟩
            cases hen'
            simp [hdata]
  · intro en hen hlt
    simp [cacheGet, hen, hlt]

/-- C5 witness: concrete round-trip of the amended semantics - storing
1.5 at time 0 makes get at time 3600000 (= expiresAt) return it, and the
stored entry has expiresAt = 0 + defaultTtl. -/
theorem claim_C5_witness :
    (cacheGet cacheC5 3600000 "SPY").2 = some 1.5 ∧
    objGet (cacheSet (⟨[], oneHourMs⟩ : MemoryCache ℚ) 0 "SPY" 1.5 none).cache "SPY" =
      some ⟨1.5, 0 + (none : Option ℤ).getD oneHourMs⟩ := by
  constructor
  · exact ((claim_C5_cache_ttl_semantics ℚ cacheC5 3600000 "SPY").2.1 1.5).mpr
      ⟨⟨1.5, 3600000⟩,
        by norm_num [cacheC5, cacheSet, objSet, objGet, oneHourMs, CacheEntry.mk.injEq],
        rfl, by norm_num⟩
  · exact (claim_C5_cache_ttl_semantics ℚ ⟨[], oneHourMs⟩ 0 "SPY").1 1.5 none

/-- C8: on the delta map A 0.12, B 0.25, C 0.31, P1 -0.18, P2 -0.09, the
call candidates are A and B, the put candidates exactly P1, the balanced
count is 1, and the selected call is B (closer to 0.20) with selected
put P1. -/
theorem claim_C8_worked_example :
    callCandidates dmC8 = [⟨"A", 0.12⟩, ⟨"B", 0.25⟩] ∧
    putCandidates dmC8 = [⟨"P1", -0.18⟩] ∧
    balancedCount dmC8 = 1 ∧
    selectedCalls dmC8 = [⟨"B", 0.25⟩] ∧
    selectedPuts dmC8 = [⟨"P1", -0.18⟩] := by
  refine ⟨?_, ?_, ?_, ?_, ?_⟩ <;>
    norm_num [callCandidates, putCandidates, balancedCount, selectedCalls,
      selectedPuts, sortByDist, dmC8, inCallBand, inPutBand, absQ,
      List.mergeSort, List.merge, List.filter, Candidate.mk.injEq]

/-- C1: for every delta map, the call candidates are exactly the entries
with delta in [0.10, 0.30] and the put candidates exactly those with
delta in [-0.30, -0.10]; each side is sorted by ascending distance of
its delta from 0.20 resp. -0.20; the selection keeps the first n of each
sorted side with n the minimum of the candidate counts; consequently the
selected call and put lists always have equal length. -/
theorem claim_C1_balanced_strike_selection :
    ∀ dm : List (String × ℚ),
      (∀ s d, (⟨s, d⟩ : Candidate) ∈ callCandidates dm ↔
        (s, d) ∈ dm ∧ ((0.10 : ℚ) ≤ d ∧ d ≤ 0.30)) ∧
      (∀ s d, (⟨s, d⟩ : Candidate) ∈ putCandidates dm ↔
        (s, d) ∈ dm ∧ (d ≤ -(0.10 : ℚ) ∧ -(0.30 : ℚ) ≤ d)) ∧
      (sortByDist 0.20 (callCandidates dm)).Pairwise
        (fun a b => absQ (a.delta - 0.20) ≤ absQ (b.delta - 0.20)) ∧
      (sortByDist (-0.20) (putCandidates dm)).Pairwise
        (fun a b => absQ (a.delta - (-0.20)) ≤ absQ (b.delta - (-0.20))) ∧
      selectedCalls dm = (sortByDist 0.20 (callCandidates dm)).take
        (min (callCandidates dm).length (putCandidates dm).length) ∧
      selectedPuts dm = (sortByDist (-0.20) (putCandidates dm)).take
        (min (callCandidates dm).length (putCandidates dm).length) ∧
      (selectedCalls dm).length =
        min (callCandidates dm).length (putCandidates dm).length ∧
      (selectedPuts dm).length =
        min (callCandidates dm).length (putCandidates dm).length ∧
      (selectedCalls dm).length = (selectedPuts dm).length := by
  intro dm
  have hcall : ∀ s d, (⟨s, d⟩ : Candidate) ∈ callCandidates dm ↔
      (s, d) ∈ dm ∧ ((0.10 : ℚ) ≤ d ∧ d ≤ 0.30) := by
    intro s d
    rw [mem_callCandidates]
    simp [inCallBand]
  have hput : ∀ s d, (⟨s, d⟩ : Candidate) ∈ putCandidates dm ↔
      (s, d) ∈ dm ∧ (d ≤ -(0.10 : ℚ) ∧ -(0.30 : ℚ) ≤ d) := by
    intro s d
    rw [mem_putCandidates]
    simp [inPutBand]
  refine ⟨hcall, hput, sortByDist_pairwise 0.20 _, sortByDist_pairwise (-0.20) _,
    rfl, rfl, selectedCalls_length dm, selectedPuts_length dm, ?_⟩
  rw [selectedCalls_length dm, selectedPuts_length dm]

/-- C1 witness: the general selection facts instantiated on the concrete
delta map of the worked example, where both selected sides have length
min 2 1 = 1. -/
theorem claim_C1_witness :
    ((⟨"A", 0.12⟩ : Candidate) ∈ callCandidates dmC8 ↔
      ("A", (0.12 : ℚ)) ∈ dmC8 ∧ ((0.10 : ℚ) ≤ 0.12 ∧ (0.12 : ℚ) ≤ 0.30)) ∧
    (selectedCalls dmC8).length = (selectedPuts dmC8).length := by
  have h := claim_C1_balanced_strike_selection dmC8
  exact ⟨h.1 "A" 0.12, h.2.2.2.2.2.2.2.2⟩

/-- C10: under unique delta-map keys, the call and put candidate sets
are symbol-disjoint (the two delta bands cannot overlap), the Phase-2
subscription list of selected identifiers has no duplicates, and one
aggregation step adds an entry's open interest to exactly the side of
its delta band, leaving the other side's sum unchanged. -/
theorem claim_C10_sides_disjoint :
    (∀ dm : List (String × ℚ), (dm.map Prod.fst).Nodup →
      (∀ c ∈ callCandidates dm, ∀ p ∈ putCandidates dm,
        c.symbol ≠ p.symbol) ∧
      (filteredSymbols dm).Nodup) ∧
    (∀ d : ℚ, ¬(inCallBand d = true ∧ inPutBand d = true)) ∧
    (∀ (a : OiAgg) (e : OiEntry) (v : ℚ), e.oi = some v → 0 < v →
      (inCallBand e.delta = true →
        (aggStep a e).callOiSum = a.callOiSum + v ∧
        (aggStep a e).putOiSum = a.putOiSum) ∧
      (inPutBand e.delta = true →
        (aggStep a e).putOiSum = a.putOiSum + v ∧
        (aggStep a e).callOiSum = a.callOiSum)) := by
  refine ⟨?_, bands_disjoint, ?_⟩
  · intro dm hnd
    refine ⟨candidate_sides_disjoint hnd, ?_⟩
    have hcn : ((selectedCalls dm).map Candidate.symbol).Nodup := by
      rw [selectedCalls, List.map_take]
      exact (List.take_sublist _ _).nodup
        (((sortByDist_perm 0.20 (callCandidates dm)).map Candidate.symbol).nodup_iff.mpr
          (callCandidates_symbols_nodup hnd))
    have hpn : ((selectedPuts dm).map Candidate.symbol).Nodup := by
      rw [selectedPuts, List.map_take]
      exact (List.take_sublist _ _).nodup
        (((sortByDist_perm (-0.20) (putCandidates dm)).map Candidate.symbol).nodup_iff.mpr
          (putCandidates_symbols_nodup hnd))
    refine (List.nodup_append).mpr ⟨hcn, hpn, ?_⟩
    intro x hx hy
    obtain ⟨c, hc, hcx⟩ := List.mem_map.mp hx
    obtain ⟨p, hp, hpx⟩ := List.mem_map.mp hy
    exact candidate_sides_disjoint hnd c (mem_selectedCalls hc) p
      (mem_selectedPuts hp) (hcx.trans hpx.symm)
  · intro a e v hoi hv
    constructor
    · intro hcb
      have hpb : inPutBand e.delta = false := by
        by_contra hcon
        exact bands_disjoint e.delta ⟨hcb, by simpa using hcon⟩
      simp [aggStep, hoi, hv, hcb, hpb]
    · intro hpb
      have hcb : inCallBand e.delta = false := by
        by_contra hcon
        exact bands_disjoint e.delta ⟨by simpa using hcon, hpb⟩
      simp [aggStep, hoi, hv, hcb, hpb]

/-- C10 witness: the disjointness facts instantiated on the worked
example's delta map, and an aggregation step on a put entry leaving the
call sum unchanged. -/
theorem claim_C10_witness :
    (filteredSymbols dmC8).Nodup ∧
    (aggStep initAgg ⟨-0.20, some 40⟩).putOiSum = initAgg.putOiSum + 40 ∧
    (aggStep initAgg ⟨-0.20, some 40⟩).callOiSum = initAgg.callOiSum := by
  refine ⟨(claim_C10_sides_disjoint.1 dmC8 (by decide)).2, ?_, ?_⟩
  · exact ((claim_C10_sides_disjoint.2.2 initAgg ⟨-0.20, some 40⟩ 40 rfl
      (by norm_num)).2 (by norm_num [inPutBand])).1
  · exact ((claim_C10_sides_disjoint.2.2 initAgg ⟨-0.20, some 40⟩ 40 rfl
      (by norm_num)).2 (by norm_num [inPutBand])).2

theorem getLast?_cons_or {α : Type} (d : α) (l : List α) :
    (d :: l).getLast? = l.getLast?.or (some d) := by
  induction l generalizing d with
  | nil => simp
  | cons b t ih =>
      rw [List.getLast?_cons_cons, ih b]
      cases t.getLast? <;> rfl

theorem objGet_applyGreekEvent_other (subscribed : List String)
    (m : List (String × ℚ)) (s sym : String) (egreeks : Bool)
    (edelta : Option ℚ) (hs : s ≠ sym) :
    objGet (applyGreekEvent subscribed m ⟨some s, egreeks, edelta⟩) sym =
      objGet m sym := by
  cases edelta with
  | none =>
      simp only [applyGreekEvent]
      split_ifs <;> rfl
  | some d =>
      simp only [applyGreekEvent]
      split_ifs <;>
        first
          | rfl
          | exact objGet_objSet_ne m s sym d (fun hh => hs hh.symm)

theorem collect_objGet (subscribed : List String) :
    ∀ (events : List GreekEvent) (m : List (String × ℚ)) (sym : String),
      objGet (events.foldl (applyGreekEvent subscribed) m) sym =
        (relevantDeltas subscribed events sym).getLast?.or (objGet m sym) := by
  intro events
  induction events with
  | nil =>
      intro m sym
      simp [relevantDeltas, Option.or]
  | cons e es ih =>
      intro m sym
      rw [List.foldl_cons, ih]
      obtain ⟨esym, egreeks, edelta⟩ := e
      cases esym with
      | none => simp [applyGreekEvent, relevantDeltas]
      | some s =>
          by_cases hs : s = sym
          · subst hs
            by_cases hc : subscribed.contains s = true
            · cases egreeks with
              | false => simp [applyGreekEvent, relevantDeltas, hc]
              | true =>
                  cases edelta with
                  | none => simp [applyGreekEvent, relevantDeltas, hc]
                  | some d =>
                      have h1 : applyGreekEvent subscribed m
                          ⟨some s, true, some d⟩ = objSet m s d := by
                        simp only [applyGreekEvent]
                        rw [if_pos hc]
                        rfl
                      have h2 : relevantDeltas subscribed
                          (⟨some s, true, some d⟩ :: es) s =
                          d :: relevantDeltas subscribed es s := by
                        simp only [relevantDeltas, List.filterMap_cons]
                        rw [if_pos ⟨trivial, hc, trivial⟩]
                      rw [h1, h2, objGet_objSet_self, getLast?_cons_or]
                      cases (relevantDeltas subscribed es s).getLast? <;> rfl
            · have h1 : applyGreekEvent subscribed m
                  ⟨some s, egreeks, edelta⟩ = m := by
                simp only [applyGreekEvent]
                rw [if_neg hc]
              have h2 : relevantDeltas subscribed
                  (⟨some s, egreeks, edelta⟩ :: es) s =
                  relevantDeltas subscribed es s := by
                simp only [relevantDeltas, List.filterMap_cons]
                rw [if_neg (fun hcon => hc hcon.2.1)]
              rw [h1, h2]
          · rw [objGet_applyGreekEvent_other subscribed m s sym egreeks edelta hs]
            have h2 : relevantDeltas subscribed
                (⟨some s, egreeks, edelta⟩ :: es) sym =
                relevantDeltas subscribed es sym := by
              simp [relevantDeltas, hs]
            rw [h2]

/-- C7 counterexample: a subscribed greek event carrying delta 2 is
recorded as-is - the listener applies no range check - so the delta map
contains the value 2, which does not lie in [-1, 1], refuting the claim
that out-of-range deltas are ignored and that every recorded value lies
in [-1, 1]. -/
theorem claim_C7_counterexample :
    collectDeltas ["A"] [eventC7] = [("A", 2)] ∧ ¬((2 : ℚ) ≤ 1) := by
  constructor
  · simp only [collectDeltas, List.foldl_cons, List.foldl_nil, eventC7,
      applyGreekEvent]
    norm_num [objSet]
  · norm_num

/-- C7 amended: the Phase-1 listener records, for each inbound greek
event whose identifier is in the subscribed set and whose delta value is
a number, that delta with last-write-wins semantics per identifier, and
ignores events with a missing delta; no range filter is applied, so the
final value for an identifier is the delta of the last recording event
for it, whatever its magnitude. -/
theorem claim_C7_last_write_wins :
    ∀ (subscribed : List String) (events : List GreekEvent) (sym : String),
      objGet (collectDeltas subscribed events) sym =
        (relevantDeltas subscribed events sym).getLast? ∧
      (∀ d : ℚ, d ∈ relevantDeltas subscribed events sym ↔
        ∃ e ∈ events, e.eventSymbol = some sym ∧
          subscribed.contains sym = true ∧ e.isGreeks = true ∧
          e.delta = some d) := by
  intro subscribed events sym
  constructor
  · have h := collect_objGet subscribed events [] sym
    rw [collectDeltas, h]
    cases (relevantDeltas subscribed events sym).getLast? <;> rfl
  · intro d
    simp only [relevantDeltas, List.mem_filterMap]
    constructor
    · rintro ⟨e, he, hf⟩
      split at hf
      case isTrue hcond => exact ⟨e, he, hcond.1, hcond.2.1, hcond.2.2, hf⟩
      case isFalse => cases hf
    · rintro ⟨e, he, h1, h2, h3, h4⟩
      exact ⟨e, he, by rw [if_pos ⟨h1, h2, h3⟩]; exact h4⟩

/-- C7 witness: the last-write-wins characterization instantiated on the
single out-of-range event: the recorded value for identifier A is the
event's delta 2. -/
theorem claim_C7_witness :
    objGet (collectDeltas ["A"] [eventC7]) "A" =
      (relevantDeltas ["A"] [eventC7] "A").getLast? ∧
    (2 : ℚ) ∈ relevantDeltas ["A"] [eventC7] "A" := by
  have h := claim_C7_last_write_wins ["A"] [eventC7] "A"
  exact ⟨h.1, (h.2 2).mpr ⟨eventC7, by simp, rfl, by simp, rfl, rfl⟩⟩

theorem objSet_fresh {α : Type} (m : List (String × α)) (k : String) (v : α)
    (h : k ∉ m.map Prod.fst) : objSet m k v = m ++ [(k, v)] := by
  induction m with
  | nil => rfl
  | cons p rest ih =>
      obtain ⟨k₀, v₀⟩ := p
      simp only [List.map_cons, List.mem_cons, not_or] at h
      simp only [objSet, if_neg (fun hh : k₀ = k => h.1 hh.symm),
        List.cons_append, List.cons.injEq, true_and]
      exact ih h.2

theorem runBatch_foldl_spec {α : Type} (outcome : String → SymbolOutcome α) :
    ∀ (symbols : List String)
      (st : List (String × α) × List (String × String)),
      symbols.Nodup →
      (∀ s ∈ symbols, s ∉ st.1.map Prod.fst ∧ s ∉ st.2.map Prod.fst) →
      (symbols.foldl (processSymbol outcome) st).1.map Prod.fst =
        st.1.map Prod.fst ++ symbols.filter (outcomeOk outcome) ∧
      (symbols.foldl (processSymbol outcome) st).2.map Prod.fst =
        st.2.map Prod.fst ++ symbols.filter (fun s => !(outcomeOk outcome s)) := by
  intro symbols
  induction symbols with
  | nil => intro st _ _; simp
  | cons s rest ih =>
      intro st hnd hfresh
      obtain ⟨hhead, hrest⟩ := List.nodup_cons.mp hnd
      have hsf := hfresh s (List.mem_cons_self s rest)
      rw [List.foldl_cons]
      cases hout : outcome s with
      | cachedHit v =>
          have hoks : outcomeOk outcome s = true := by
            simp [outcomeOk, hout]
          have hst : processSymbol outcome st s = (st.1 ++ [(s, v)], st.2) := by
            simp [processSymbol, hout, objSet_fresh st.1 s v hsf.1]
          rw [hst]
          have hfresh' : ∀ t ∈ rest,
              t ∉ (st.1 ++ [(s, v)]).map Prod.fst ∧
              t ∉ st.2.map Prod.fst := by
            intro t ht
            have hf := hfresh t (List.mem_cons_of_mem s ht)
            refine ⟨?_, hf.2⟩
            simp only [List.map_append, List.mem_append, List.map_cons,
              List.map_nil, List.mem_singleton, not_or]
            exact ⟨hf.1, fun hts => hhead (hts ▸ ht)⟩
          obtain ⟨h1, h2⟩ := ih (st.1 ++ [(s, v)], st.2) hrest hfresh'
          constructor
          · rw [h1]
            simp [List.filter_cons, hoks, List.map_append, List.append_assoc]
          · rw [h2]
            simp [List.filter_cons, hoks]
      | computed v =>
          have hoks : outcomeOk outcome s = true := by
            simp [outcomeOk, hout]
          have hst : processSymbol outcome st s = (st.1 ++ [(s, v)], st.2) := by
            simp [processSymbol, hout, objSet_fresh st.1 s v hsf.1]
          rw [hst]
          have hfresh' : ∀ t ∈ rest,
              t ∉ (st.1 ++ [(s, v)]).map Prod.fst ∧
              t ∉ st.2.map Prod.fst := by
            intro t ht
            have hf := hfresh t (List.mem_cons_of_mem s ht)
            refine ⟨?_, hf.2⟩
            simp only [List.map_append, List.mem_append, List.map_cons,
              List.map_nil, List.mem_singleton, not_or]
            exact ⟨hf.1, fun hts => hhead (hts ▸ ht)⟩
          obtain ⟨h1, h2⟩ := ih (st.1 ++ [(s, v)], st.2) hrest hfresh'
          constructor
          · rw [h1]
            simp [List.filter_cons, hoks, List.map_append, List.append_assoc]
          · rw [h2]
            simp [List.filter_cons, hoks]
      | failed msg =>
          have hoks : outcomeOk outcome s = false := by
            simp [outcomeOk, hout]
          have hst : processSymbol outcome st s =
              (st.1, st.2 ++ [(s, msg)]) := by
            simp [processSymbol, hout, objSet_fresh st.2 s msg hsf.2]
          rw [hst]
          have hfresh' : ∀ t ∈ rest,
              t ∉ st.1.map Prod.fst ∧
              t ∉ (st.2 ++ [(s, msg)]).map Prod.fst := by
            intro t ht
            have hf := hfresh t (List.mem_cons_of_mem s ht)
            refine ⟨hf.1, ?_⟩
            simp only [List.map_append, List.mem_append, List.map_cons,
              List.map_nil, List.mem_singleton, not_or]
            exact ⟨hf.2, fun hts => hhead (hts ▸ ht)⟩
          obtain ⟨h1, h2⟩ := ih (st.1, st.2 ++ [(s, msg)]) hrest hfresh'
          constructor
          · rw [h1]
            simp [List.filter_cons, hoks]
          · rw [h2]
            simp [List.filter_cons, hoks, List.map_append, List.append_assoc]

/-- C6: in a batch over distinct symbols, every failing symbol is
recorded in the errors map and every succeeding symbol (cached or
computed) in the results map, in request order - a failure never aborts
the batch - and the final summary reports total = number of requested
symbols, successful = number of symbols with a result, failed = number
of symbols in errors. -/
theorem claim_C6_batch_failure_isolation :
    ∀ (α : Type) (outcome : String → SymbolOutcome α)
      (symbols : List String), symbols.Nodup →
      ((runBatch outcome symbols).1.1.map Prod.fst =
        symbols.filter (outcomeOk outcome)) ∧
      ((runBatch outcome symbols).1.2.map Prod.fst =
        symbols.filter (fun s => !(outcomeOk outcome s))) ∧
      ((runBatch outcome symbols).2 = ⟨symbols.length,
        (symbols.filter (outcomeOk outcome)).length,
        (symbols.filter (fun s => !(outcomeOk outcome s))).length⟩) := by
  intro α outcome symbols hnd
  obtain ⟨h1, h2⟩ := runBatch_foldl_spec outcome symbols ([], []) hnd
    (by intro s _; simp)
  simp only [List.map_nil, List.nil_append] at h1 h2
  refine ⟨h1, h2, ?_⟩
  simp only [runBatch]
  have hl1 : (symbols.foldl (processSymbol outcome) ([], [])).1.length =
      (symbols.filter (outcomeOk outcome)).length := by
    rw [← List.length_map _ Prod.fst, h1]
  have hl2 : (symbols.foldl (processSymbol outcome) ([], [])).2.length =
      (symbols.filter (fun s => !(outcomeOk outcome s))).length := by
    rw [← List.length_map _ Prod.fst, h2]
  rw [hl1, hl2]

/-- C6 witness: a batch of three symbols whose second fails: the summary
is total 3, successful 2, failed 1; the errors map holds exactly the
second symbol; the results map holds the first and third in order. -/
theorem claim_C6_witness :
    (runBatch outcomeC6 ["S1", "S2", "S3"]).2 = ⟨3, 2, 1⟩ ∧
    (runBatch outcomeC6 ["S1", "S2", "S3"]).1.2 =
      [("S2", "No options found in the 10-30 delta range")] ∧
    (runBatch outcomeC6 ["S1", "S2", "S3"]).1.1.map Prod.fst =
      ["S1", "S3"] := by
  have h := claim_C6_batch_failure_isolation ℚ outcomeC6 ["S1", "S2", "S3"]
    (by decide)
  exact ⟨h.2.2.trans (by rfl), by rfl, h.1.trans (by rfl)⟩

/-- C9: cleanupStreamer is idempotent; once the client exists (and in
any module-reachable state - subscriptions exist only after the client
was created) one cleanup call empties the subscription state; a pipeline
run hands the body a state with no leftover subscriptions, listener or
timer; and every exit path of a run (authentication failure or body
completion, success or not) ends with an empty subscription state,
provided the body never destroys the client singleton (no code path
sets the client back to null). -/
theorem claim_C9_teardown_idempotent :
    (∀ s : StreamerState,
      cleanupStreamer (cleanupStreamer s) = cleanupStreamer s) ∧
    (∀ s : StreamerState, (s.clientInit = false → streamerIdle s) →
      streamerIdle (cleanupStreamer s)) ∧
    (∀ (hasCreds : Bool) (s s2 : StreamerState),
      (s.clientInit = false → streamerIdle s) →
      authenticate hasCreds (cleanupStreamer s) = some s2 →
      streamerIdle s2) ∧
    (∀ (hasCreds : Bool) (body : StreamerState → StreamerState × Bool)
      (s : StreamerState),
      (∀ t, ((body t).1).clientInit = t.clientInit) →
      (s.clientInit = false → streamerIdle s) →
      streamerIdle (streamSkewRun hasCreds body s).1) := by
  have hidle : ∀ s : StreamerState, (s.clientInit = false → streamerIdle s) →
      streamerIdle (cleanupStreamer s) := by
    intro s hinv
    cases hcl : s.clientInit with
    | false => simpa [cleanupStreamer, hcl] using hinv hcl
    | true => simp [cleanupStreamer, hcl, streamerIdle]
  have hcleanClient : ∀ s : StreamerState,
      (cleanupStreamer s).clientInit = s.clientInit := by
    intro s
    cases hcl : s.clientInit <;> simp [cleanupStreamer, hcl]
  refine ⟨?_, hidle, ?_, ?_⟩
  · intro s
    cases hcl : s.clientInit <;> simp [cleanupStreamer, hcl]
  · intro hasCreds s s2 hinv hauth
    have h1 := hidle s hinv
    simp only [authenticate] at hauth
    split at hauth
    case isTrue =>
      cases hauth
      exact h1
    case isFalse =>
      split at hauth
      case isTrue =>
        cases hauth
        exact h1
      case isFalse => cases hauth
  · intro hasCreds body s hbody hinv
    simp only [streamSkewRun]
    cases hauth : authenticate hasCreds (cleanupStreamer s) with
    | none =>
        exact hidle (cleanupStreamer s)
          (fun h => hidle s hinv)
    | some s2 =>
        have hs2 : s2.clientInit = true := by
          simp only [authenticate] at hauth
          split at hauth
          case isTrue hcl =>
            cases hauth
            exact hcl
          case isFalse =>
            split at hauth
            case isTrue =>
              cases hauth
              rfl
            case isFalse => cases hauth
        have hb : ((body s2).1).clientInit = true := by
          rw [hbody s2, hs2]
        exact hidle (body s2).1 (fun h => by rw [hb] at h; cases h)

/-- C9 witness: from a state holding a prior subscription, listener and
timer, a full run with a body that subscribes anew ends with an empty
subscription state, and a second cleanup changes nothing. -/
theorem claim_C9_witness :
    streamerIdle (streamSkewRun true bodyC9 stateC9).1 ∧
    cleanupStreamer (cleanupStreamer stateC9) = cleanupStreamer stateC9 := by
  refine ⟨claim_C9_teardown_idempotent.2.2.2 true bodyC9 stateC9
    (fun t => rfl) ?_, claim_C9_teardown_idempotent.1 stateC9⟩
  intro h
  simp [stateC9] at h

theorem expStep_eq_minStep (acc : Option (Expiration × ℤ)) (e : Expiration) :
    expStep acc e = match expEligible e with
      | none => acc
      | some p => minStep acc p := by
  simp only [expStep, expEligible]
  cases e.dte with
  | none => rfl
  | some d =>
      by_cases h : d < 0
      · simp [h]
      · cases acc with
        | none => simp [h, minStep]
        | some b =>
            obtain ⟨b1, b2⟩ := b
            simp [h, minStep]

theorem foldl_expStep_eq (l : List Expiration) :
    ∀ acc, l.foldl expStep acc = (l.filterMap expEligible).foldl minStep acc := by
  induction l with
  | nil => intro acc; rfl
  | cons e t ih =>
      intro acc
      rw [List.foldl_cons, expStep_eq_minStep, List.filterMap_cons]
      cases expEligible e with
      | none => exact ih acc
      | some p => rw [List.foldl_cons]; exact ih (minStep acc p)

theorem foldl_minStep_isSome :
    ∀ (l : List (Expiration × ℤ)) (a : Expiration × ℤ),
      (l.foldl minStep (some a)).isSome := by
  intro l
  induction l with
  | nil => intro a; rfl
  | cons q t ih =>
      intro a
      rw [List.foldl_cons]
      by_cases h : q.2 < a.2
      · rw [show minStep (some a) q = some q by simp [minStep, h]]
        exact ih q
      · rw [show minStep (some a) q = some a by simp [minStep, h]]
        exact ih a

theorem foldl_minStep_none_eq (l : List (Expiration × ℤ))
    (h : l.foldl minStep none = none) : l = [] := by
  cases l with
  | nil => rfl
  | cons q t =>
      exfalso
      rw [List.foldl_cons, show minStep none q = some q from rfl] at h
      have := foldl_minStep_isSome t q
      rw [h] at this
      cases this

theorem foldl_minStep_acc (l : List (Expiration × ℤ)) :
    ∀ b0 : Expiration × ℤ,
      l.foldl minStep (some b0) = match l.foldl minStep none with
        | none => some b0
        | some c => if c.2 < b0.2 then some c else some b0 := by
  induction l with
  | nil => intro b0; rfl
  | cons q t ih =>
      intro b0
      rw [List.foldl_cons, List.foldl_cons,
        show minStep none q = some q from rfl]
      by_cases h : q.2 < b0.2
      · rw [show minStep (some b0) q = some q by simp [minStep, h], ih q]
        cases hF : t.foldl minStep none with
        | none => simp [h]
        | some c =>
            show (if c.2 < q.2 then some c else some q) =
              match (if c.2 < q.2 then some c else some q) with
                | none => some b0
                | some x => if x.2 < b0.2 then some x else some b0
            by_cases h2 : c.2 < q.2
            · rw [if_pos h2]
              show some c = if c.2 < b0.2 then some c else some b0
              rw [if_pos (lt_trans h2 h)]
            · rw [if_neg h2]
              show some q = if q.2 < b0.2 then some q else some b0
              rw [if_pos h]
      · rw [show minStep (some b0) q = some b0 by simp [minStep, h], ih b0, ih q]
        cases hF : t.foldl minStep none with
        | none =>
            show some b0 = if q.2 < b0.2 then some q else some b0
            rw [if_neg h]
        | some c =>
            show (if c.2 < b0.2 then some c else some b0) =
              match (if c.2 < q.2 then some c else some q) with
                | none => some b0
                | some x => if x.2 < b0.2 then some x else some b0
            by_cases h2 : c.2 < q.2
            · rw [if_pos h2]
            · rw [if_neg h2]
              show (if c.2 < b0.2 then some c else some b0) =
                if q.2 < b0.2 then some q else some b0
              rw [if_neg h, if_neg (by omega)]

theorem firstMin_spec (l : List (Expiration × ℤ)) :
    ∀ b : Expiration × ℤ, l.foldl minStep none = some b →
      ∃ pre post, l = pre ++ b :: post ∧ (∀ q ∈ pre, b.2 < q.2) ∧
        (∀ q ∈ post, b.2 ≤ q.2) := by
  induction l with
  | nil => intro b h; cases h
  | cons p t ih =>
      intro b h
      rw [List.foldl_cons, show minStep none p = some p from rfl,
        foldl_minStep_acc t p] at h
      cases hF : t.foldl minStep none with
      | none =>
          rw [hF] at h
          simp only at h
          cases h
          have ht : t = [] := foldl_minStep_none_eq t hF
          subst ht
          exact ⟨[], [], rfl, by simp, by simp⟩
      | some c =>
          rw [hF] at h
          simp only at h
          by_cases hlt : c.2 < p.2
          · rw [if_pos hlt] at h
            cases h
            obtain ⟨pre, post, heq, hpre, hpost⟩ := ih b hF
            refine ⟨p :: pre, post, by rw [heq, List.cons_append], ?_, hpost⟩
            intro q hq
            rcases List.mem_cons.mp hq with hq | hq
            · rw [hq]; exact hlt
            · exact hpre q hq
          · rw [if_neg hlt] at h
            cases h
            obtain ⟨pre, post, heq, hpre, hpost⟩ := ih c hF
            refine ⟨[], t, rfl, by simp, ?_⟩
            intro q hq
            have hc : c.2 ≤ q.2 := by
              rw [heq] at hq
              rcases List.mem_append.mp hq with hq | hq
              · exact le_of_lt (hpre q hq)
              · rcases List.mem_cons.mp hq with hq | hq
                · rw [hq]
                · exact hpost q hq
            exact le_trans (not_lt.mp hlt) hc

theorem eligible_elim {items : List Expiration} {b : Expiration} {dist : ℤ}
    (h : (b, dist) ∈ eligibleExps items) :
    validExpTypes.contains b.expirationType = true ∧
      ∃ d, b.dte = some d ∧ 0 ≤ d ∧ dist = absI (d - targetDte) := by
  obtain ⟨e, he, heq⟩ := List.mem_filterMap.mp h
  have hvalid := (List.mem_filter.mp he).2
  simp only [expEligible] at heq
  split at heq
  next hd => cases heq
  next d hd =>
      split at heq
      next hge => cases heq
      next hge =>
          injection heq with h1
          injection h1 with h2 h3
          subst h2
          exact ⟨hvalid, d, hd, not_lt.mp hge, h3.symm⟩

/-- C4: a successfully selected expiration has an allowed category
(End-Of-Month or Regular) and a nonnegative dte, and it is the first
encountered eligible expiration whose distance from the target dte 30 is
minimal: every earlier eligible expiration has strictly greater distance
and every later one has greater-or-equal distance.  On dte candidates
10, 25, 32, 40 the selection is dte 32, and a disallowed category at dte
exactly 30 is excluded (dte 40 wins). -/
theorem claim_C4_expiration_selection :
    (∀ (items : List Expiration) (b : Expiration),
      selectExpiration items = Except.ok b →
        validExpTypes.contains b.expirationType = true ∧
        ∃ d, b.dte = some d ∧ 0 ≤ d ∧
          ∃ pre post,
            eligibleExps items = pre ++ (b, absI (d - targetDte)) :: post ∧
            (∀ q ∈ pre, absI (d - targetDte) < q.2) ∧
            (∀ q ∈ post, absI (d - targetDte) ≤ q.2)) ∧
    selectExpiration itemsC4a = Except.ok ⟨"Regular", some 32⟩ ∧
    selectExpiration itemsC4b = Except.ok ⟨"Regular", some 40⟩ := by
  refine ⟨?_, rfl, rfl⟩
  intro items b h
  simp only [selectExpiration] at h
  split at h
  next => cases h
  next =>
    split at h
    next hnone => cases h
    next b' dist hsome =>
      injection h with hb
      subst hb
      have hs2 : (eligibleExps items).foldl minStep none = some (b', dist) := by
        rw [eligibleExps, ← foldl_expStep_eq]
        exact hsome
      obtain ⟨pre, post, heq, hpre, hpost⟩ := firstMin_spec _ _ hs2
      have hmem : (b', dist) ∈ eligibleExps items := by
        rw [heq]
        exact List.mem_append_right pre (List.mem_cons_self _ _)
      obtain ⟨hvalid, d, hdte, hdnn, hdist⟩ := eligible_elim hmem
      subst hdist
      exact ⟨hvalid, d, hdte, hdnn, pre, post, heq, hpre, hpost⟩

/-- C4 witness: the selection facts instantiated on the concrete chain
with dte candidates 10, 25, 32, 40, where the chosen expiration is the
Regular one at dte 32 and its category is allowed. -/
theorem claim_C4_witness :
    selectExpiration itemsC4a = Except.ok ⟨"Regular", some 32⟩ ∧
    validExpTypes.contains
      (Expiration.mk "Regular" (some 32)).expirationType = true := by
  refine ⟨claim_C4_expiration_selection.2.1, ?_⟩
  exact (claim_C4_expiration_selection.1 itemsC4a ⟨"Regular", some 32⟩
    claim_C4_expiration_selection.2.1).1

end VolDashboard
